import Mathlib

/-!
# Verification of the `bincode_embedded` wire format

A shallow embedding of the crate's serializer (`src/serialize.rs`), deserializer
(`src/deserialize.rs`) and the reference `CoreRead`/`CoreWrite` implementations
(`src/lib.rs`), together with proofs about the round-trip, length-prefix, and
error-surface properties of the format.

Machine bytes are modelled as `Nat` values `< 256`; byte buffers as `List Nat`.
Rust panics (out-of-bounds slicing / indexing, `unimplemented!`, the
`Error::custom` implementations that call `panic!`) are modelled as an explicit
`panicked` outcome, distinct from returned errors.
-/

set_option maxRecDepth 20000

namespace BincodeEmbedded

/-- The `byteorder::ByteOrder` parameter `B`: big- or little-endian, chosen once
per encode/decode call. -/
inductive BOrder where
  | be
  | le
deriving DecidableEq

/-- Little-endian byte list (`w` bytes) of the value `n`: least significant byte
first; only the low `8*w` bits of `n` are represented. -/
def leBytes : Nat → Nat → List Nat
  | 0, _ => []
  | w + 1, n => (n % 256) :: leBytes w (n / 256)

/-- Value of a little-endian byte list. -/
def leRead : List Nat → Nat
  | [] => 0
  | b :: rest => b + 256 * leRead rest

/-- `B::write_uXX` / `B::write_iXX` / `B::write_fXX`: the `w`-byte serialization
of the bit pattern `n` in byte order `bo`. -/
def writeBytes (bo : BOrder) (w n : Nat) : List Nat :=
  match bo with
  | .le => leBytes w n
  | .be => (leBytes w n).reverse

/-- `B::read_uXX` and friends: the bit pattern held by a byte list in byte order
`bo`. -/
def readBytes (bo : BOrder) (bs : List Nat) : Nat :=
  match bo with
  | .le => leRead bs
  | .be => leRead bs.reverse

/-- The two's-complement bit pattern of a signed integer in `w` bytes; models the
`v as uXX` reinterpretation performed by `B::write_iXX`. -/
def toUnsigned (w : Nat) (v : Int) : Nat :=
  (v % ((2 : Int) ^ (8 * w))).toNat

/-- The signed value of a `w`-byte two's-complement bit pattern; models the
reinterpretation performed by `B::read_iXX`. -/
def fromUnsigned (w : Nat) (n : Nat) : Int :=
  if n < 2 ^ (8 * w - 1) then (n : Int) else (n : Int) - (2 : Int) ^ (8 * w)

/-- `DeserializeError` from deserialize.rs. The `Read` variant (wrapping the
reader's error) is not modelled because the `&[u8]` reader's error type is `()`
and its `read_range` never returns `Err`: exhaustion panics instead (see
`read_range` below). `Utf8` abstracts over the wrapped `str::Utf8Error` payload. -/
inductive DeserializeError where
  | InvalidBoolValue (b : Nat)
  | InvalidCharEncoding
  | Utf8
  | InvalidOptionValue (b : Nat)
deriving DecidableEq

/-- Outcome of a deserializer operation reading from the `&[u8]` reader: a value
plus the remaining input, a returned `DeserializeError`, or a Rust panic. -/
inductive DOut (α : Type) where
  | ok (a : α) (rest : List Nat)
  | fail (e : DeserializeError)
  | panicked

/-- `<&[u8] as CoreRead>::read_range` (lib.rs lines 211-215):
`let result = &self[..len]; *self = &self[len..]; Ok(result)`.
The slice expression `&self[..len]` panics when `len > self.len()`; the
implementation has no error return at all (its error type `()` is never
produced). -/
def read_range (len : Nat) (src : List Nat) : DOut (List Nat) :=
  if len ≤ src.length then .ok (src.take len) (src.drop len) else .panicked

/-- `CoreRead::read` via its default implementation: `read_range(1)?` then the
slice's first byte (`buff[0]`, total here because the slice has length 1). -/
def readByte (src : List Nat) : DOut Nat :=
  match read_range 1 src with
  | .ok buf rest => .ok (buf.headD 0) rest
  | .fail e => .fail e
  | .panicked => .panicked

/-- The `BufferWriter` sink: a fixed backing buffer (its length is the capacity)
and a write cursor. -/
structure BufferWriter where
  buffer : List Nat
  index : Nat
deriving DecidableEq

/-- `BufferWriterError` from lib.rs. -/
inductive BufferWriterError where
  | BufferTooSmall
deriving DecidableEq

/-- `CoreWrite for &mut BufferWriter::write` (lib.rs lines 189-196): checks the
cursor against the capacity and returns `BufferTooSmall` when full, otherwise
stores the byte and advances. -/
def writeMut (w : BufferWriter) (val : Nat) : Except BufferWriterError BufferWriter :=
  if w.buffer.length ≤ w.index then .error .BufferTooSmall
  else .ok ⟨w.buffer.set w.index val, w.index + 1⟩

/-- Outcome of the by-value `BufferWriter` write, which can panic. -/
inductive WOut where
  | ok (w : BufferWriter)
  | panicked
deriving DecidableEq

/-- `CoreWrite for BufferWriter::write` (lib.rs lines 201-205):
`self.buffer[self.index] = val; self.index += 1; Ok(())` with NO capacity check;
the indexing panics when the cursor is at or past the end. Its error type is
`()` and is never produced. -/
def writeByValue (w : BufferWriter) (val : Nat) : WOut :=
  if w.index < w.buffer.length then .ok ⟨w.buffer.set w.index val, w.index + 1⟩
  else .panicked

/-- `CoreWrite::write_all` default implementation (lib.rs lines 47-52):
`for byte in val { self.write(*byte)?; } Ok(())`, instantiated at the checked
`&mut BufferWriter` writer. The writer is mutated in place, so on error the
bytes already written stay written; the pair returns the final writer state in
both outcomes. -/
def write_all (w : BufferWriter) (val : List Nat) :
    Except BufferWriterError Unit × BufferWriter :=
  match val with
  | [] => (.ok (), w)
  | b :: rest =>
    match writeMut w b with
    | .ok w2 => write_all w2 rest
    | .error e => (.error e, w)

/-- `SerializeError` from serialize.rs, with the writer instantiated at
`&mut BufferWriter`. -/
inductive SerializeError where
  | Write (e : BufferWriterError)
  | SequenceMustHaveLength
deriving DecidableEq

/-- `Serializer::serialize_u8` against the `&mut BufferWriter` sink:
`self.writer.write(v)`. -/
def serialize_u8W (v : Nat) (w : BufferWriter) :
    Except SerializeError Unit × BufferWriter :=
  match writeMut w v with
  | .ok w2 => (.ok (), w2)
  | .error e => (.error (.Write e), w)

/-- `Serializer::serialize_u16` against the `&mut BufferWriter` sink:
`B::write_u16(&mut buf, v); self.writer.write_all(&buf)`. -/
def serialize_u16W (bo : BOrder) (v : Nat) (w : BufferWriter) :
    Except SerializeError Unit × BufferWriter :=
  match write_all w (writeBytes bo 2 v) with
  | (.ok _, w2) => (.ok (), w2)
  | (.error e, w2) => (.error (.Write e), w2)

/-- `serialize_seq_len` (serialize.rs lines 31-37):
`let len = seq_len.ok_or(SerializeError::SequenceMustHaveLength)?;
serializer.serialize_u16(len as SequenceLengthType)`. The `as u16` cast keeps
the low 16 bits. -/
def serialize_seq_len (bo : BOrder) (seq_len : Option Nat) (w : BufferWriter) :
    Except SerializeError Unit × BufferWriter :=
  match seq_len with
  | none => (.error .SequenceMustHaveLength, w)
  | some len => serialize_u16W bo (len % 2 ^ 16) w

/-- `serialize_map_len` (serialize.rs lines 53-59):
`let len = map_len.ok_or(SerializeError::SequenceMustHaveLength)?;
serializer.serialize_u8(len as MapLenType)`. `MapLenType` is `u8`, so the cast
keeps the low 8 bits and exactly one byte goes on the wire. -/
def serialize_map_len (map_len : Option Nat) (w : BufferWriter) :
    Except SerializeError Unit × BufferWriter :=
  match map_len with
  | none => (.error .SequenceMustHaveLength, w)
  | some len => serialize_u8W (len % 2 ^ 8) w

/-- `encode_utf8` (serialize.rs lines 501-524): the 1-4 byte UTF-8 encoding of a
Unicode scalar value. The Rust function fills a 4-byte buffer from position
`pos`; its observable output `as_slice()` is exactly this list. Constants:
`MAX_ONE_B = 0x80`, `MAX_TWO_B = 0x800`, `MAX_THREE_B = 0x10000`,
`TAG_CONT = 0x80`, `TAG_TWO_B = 0xC0`, `TAG_THREE_B = 0xE0`, `TAG_FOUR_B = 0xF0`. -/
def encode_utf8 (code : Nat) : List Nat :=
  if code < 0x80 then
    [code]
  else if code < 0x800 then
    [((code >>> 6) &&& 0x1F) ||| 0xC0,
     (code &&& 0x3F) ||| 0x80]
  else if code < 0x10000 then
    [((code >>> 12) &&& 0x0F) ||| 0xE0,
     ((code >>> 6) &&& 0x3F) ||| 0x80,
     (code &&& 0x3F) ||| 0x80]
  else
    [((code >>> 18) &&& 0x07) ||| 0xF0,
     ((code >>> 12) &&& 0x3F) ||| 0x80,
     ((code >>> 6) &&& 0x3F) ||| 0x80,
     (code &&& 0x3F) ||| 0x80]

/-- The 256-entry `UTF8_CHAR_WIDTH` table (deserialize.rs lines 443-460),
transcribed entry for entry. -/
def UTF8_CHAR_WIDTH : List Nat :=
  [1, 1, 1, 1, 1, 1, 1, 1, 1, 1, 1, 1, 1, 1, 1, 1,
   1, 1, 1, 1, 1, 1, 1, 1, 1, 1, 1, 1, 1, 1, 1, 1,
   1, 1, 1, 1, 1, 1, 1, 1, 1, 1, 1, 1, 1, 1, 1, 1,
   1, 1, 1, 1, 1, 1, 1, 1, 1, 1, 1, 1, 1, 1, 1, 1,
   1, 1, 1, 1, 1, 1, 1, 1, 1, 1, 1, 1, 1, 1, 1, 1,
   1, 1, 1, 1, 1, 1, 1, 1, 1, 1, 1, 1, 1, 1, 1, 1,
   1, 1, 1, 1, 1, 1, 1, 1, 1, 1, 1, 1, 1, 1, 1, 1,
   1, 1, 1, 1, 1, 1, 1, 1, 1, 1, 1, 1, 1, 1, 1, 1,
   0, 0, 0, 0, 0, 0, 0, 0, 0, 0, 0, 0, 0, 0, 0, 0,
   0, 0, 0, 0, 0, 0, 0, 0, 0, 0, 0, 0, 0, 0, 0, 0,
   0, 0, 0, 0, 0, 0, 0, 0, 0, 0, 0, 0, 0, 0, 0, 0,
   0, 0, 0, 0, 0, 0, 0, 0, 0, 0, 0, 0, 0, 0, 0, 0,
   0, 0, 2, 2, 2, 2, 2, 2, 2, 2, 2, 2, 2, 2, 2, 2,
   2, 2, 2, 2, 2, 2, 2, 2, 2, 2, 2, 2, 2, 2, 2, 2,
   3, 3, 3, 3, 3, 3, 3, 3, 3, 3, 3, 3, 3, 3, 3, 3,
   4, 4, 4, 4, 4, 0, 0, 0, 0, 0, 0, 0, 0, 0, 0, 0]

/-- `utf8_char_width` (deserialize.rs lines 463-465): table lookup of the
expected total width for a leading byte. -/
def utf8_char_width (b : Nat) : Nat :=
  UTF8_CHAR_WIDTH.getD b 0

/-- Is `b` a UTF-8 continuation byte (`0x80..=0xBF`)? Part of the model of
`core::str::from_utf8` validation. -/
def isCont (b : Nat) : Bool :=
  0x80 ≤ b && b < 0xC0

/-- Allowed second byte of a 3-byte sequence given its leading byte, per the
UTF-8 validation ranges of `core::str::from_utf8` (excludes overlong encodings
via `0xE0` and surrogates via `0xED`). -/
def valid3Second (b0 b1 : Nat) : Bool :=
  if b0 = 0xE0 then 0xA0 ≤ b1 && b1 < 0xC0
  else if b0 = 0xED then 0x80 ≤ b1 && b1 < 0xA0
  else isCont b1

/-- Allowed second byte of a 4-byte sequence given its leading byte (excludes
overlong encodings via `0xF0` and scalars above `0x10FFFF` via `0xF4`). -/
def valid4Second (b0 b1 : Nat) : Bool :=
  if b0 = 0xF0 then 0x90 ≤ b1 && b1 < 0xC0
  else if b0 = 0xF4 then 0x80 ≤ b1 && b1 < 0x90
  else isCont b1

mutual

/-- Model of `core::str::from_utf8(bs).is_ok()`: the byte list is a well-formed
UTF-8 string. Dispatches on the leading byte's range (ASCII, 2-, 3- or 4-byte
sequence, or an invalid leading byte) and checks the continuation bytes of the
indicated width. -/
def utf8Valid : List Nat → Bool
  | [] => true
  | b0 :: rest =>
    if b0 < 0x80 then utf8Valid rest
    else if b0 < 0xC2 then false
    else if b0 < 0xE0 then utf8Valid2 rest
    else if b0 < 0xF0 then utf8Valid3 b0 rest
    else if b0 < 0xF5 then utf8Valid4 b0 rest
    else false

/-- One continuation byte after a 2-byte leading byte, then the rest. -/
def utf8Valid2 : List Nat → Bool
  | [] => false
  | b1 :: r => isCont b1 && utf8Valid r

/-- Two continuation bytes after a 3-byte leading byte, then the rest. -/
def utf8Valid3 (b0 : Nat) : List Nat → Bool
  | [] => false
  | [_] => false
  | b1 :: b2 :: r => (valid3Second b0 b1 && isCont b2) && utf8Valid r

/-- Three continuation bytes after a 4-byte leading byte, then the rest. -/
def utf8Valid4 (b0 : Nat) : List Nat → Bool
  | [] => false
  | [_] => false
  | [_, _] => false
  | b1 :: b2 :: b3 :: r => (valid4Second b0 b1 && isCont b2 && isCont b3) && utf8Valid r

end

/-- The 2-byte case of `utf8DecodeOne`. -/
def utf8Dec2 (b0 : Nat) : List Nat → Option (Nat × List Nat)
  | [] => none
  | b1 :: r =>
    if isCont b1 then some ((b0 - 0xC0) * 0x40 + (b1 - 0x80), r) else none

/-- The 3-byte case of `utf8DecodeOne`. -/
def utf8Dec3 (b0 : Nat) : List Nat → Option (Nat × List Nat)
  | [] => none
  | [_] => none
  | b1 :: b2 :: r =>
    if valid3Second b0 b1 && isCont b2 then
      some ((b0 - 0xE0) * 0x1000 + (b1 - 0x80) * 0x40 + (b2 - 0x80), r)
    else none

/-- The 4-byte case of `utf8DecodeOne`. -/
def utf8Dec4 (b0 : Nat) : List Nat → Option (Nat × List Nat)
  | [] => none
  | [_] => none
  | [_, _] => none
  | b1 :: b2 :: b3 :: r =>
    if valid4Second b0 b1 && isCont b2 && isCont b3 then
      some ((b0 - 0xF0) * 0x40000 + (b1 - 0x80) * 0x1000 + (b2 - 0x80) * 0x40 + (b3 - 0x80), r)
    else none

/-- Model of `str::chars().next()` on a UTF-8 byte list: the first decoded
scalar value and the remaining bytes, or `none` when the head sequence is
malformed. -/
def utf8DecodeOne : List Nat → Option (Nat × List Nat)
  | [] => none
  | b0 :: rest =>
    if b0 < 0x80 then some (b0, rest)
    else if b0 < 0xC2 then none
    else if b0 < 0xE0 then utf8Dec2 b0 rest
    else if b0 < 0xF0 then utf8Dec3 b0 rest
    else if b0 < 0xF5 then utf8Dec4 b0 rest
    else none

/-- The static shape of a target type, as seen by the serde-driven dispatch:
one constructor per shape category of the value model. Fixed-width scalars
carry their byte width `w` (1, 2, 4, 8 or 16 in the source); floats are handled
by their IEEE bit pattern, which is what `B::write_fXX`/`B::read_fXX` put on
and take off the wire. -/
inductive Shape where
  | sbool
  | suint (w : Nat)
  | sint (w : Nat)
  | sfloat (w : Nat)
  | schar
  | sstr
  | sbytes
  | soption (t : Shape)
  | sunit
  | sseq (t : Shape)
  | stuple (ts : List Shape)
  | smap (k v : Shape)
  | senum (variants : List Shape)

/-- A structured value of the value model. Unit structs and newtype structs
encode exactly as `vunit` and the wrapped value; tuples, tuple structs and
structs all encode positionally as `vtuple`; an enum value is its variant index
plus that variant's payload (a unit variant has payload `vunit`, tuple/struct
variants a `vtuple`). -/
inductive Value where
  | vbool (b : Bool)
  | vuint (w n : Nat)
  | vint (w : Nat) (v : Int)
  | vfloat (w bits : Nat)
  | vchar (c : Nat)
  | vstr (s : List Nat)
  | vbytes (s : List Nat)
  | vnone
  | vsome (v : Value)
  | vunit
  | vseq (xs : List Value)
  | vtuple (xs : List Value)
  | vmap (ps : List (Value × Value))
  | venum (idx : Nat) (payload : Value)

mutual

/-- The serializer of serialize.rs applied to a complete value, with an
infallible sink: the byte list written. Mirrors each `serialize_*` method:
`bool` as one byte (`v as u8`), fixed-width scalars via `B::write_*`,
`char` via `encode_utf8`, str/bytes as `serialize_u16(len as u16)` + payload,
`None`/`Some` as `0`/`1` + payload, unit as nothing, sequences as
`serialize_seq_len` + elements, tuples/structs as just their fields, maps as
`serialize_map_len` (`len as u8`) + key/value pairs, enum variants as
`variant_index as u8` + payload. -/
def serialize (bo : BOrder) : Value → List Nat
  | .vbool b => [if b then 1 else 0]
  | .vuint w n => writeBytes bo w n
  | .vint w v => writeBytes bo w (toUnsigned w v)
  | .vfloat w bits => writeBytes bo w bits
  | .vchar c => encode_utf8 c
  | .vstr s => writeBytes bo 2 (s.length % 2 ^ 16) ++ s
  | .vbytes s => writeBytes bo 2 (s.length % 2 ^ 16) ++ s
  | .vnone => [0]
  | .vsome v => 1 :: serialize bo v
  | .vunit => []
  | .vseq xs => writeBytes bo 2 (xs.length % 2 ^ 16) ++ serializeList bo xs
  | .vtuple xs => serializeList bo xs
  | .vmap ps => (ps.length % 2 ^ 8) :: serializePairs bo ps
  | .venum idx payload => (idx % 2 ^ 8) :: serialize bo payload

/-- Elements of a sequence/tuple serialized in order (`serialize_element` /
`serialize_field` calls). -/
def serializeList (bo : BOrder) : List Value → List Nat
  | [] => []
  | x :: r => serialize bo x ++ serializeList bo r

/-- Map entries serialized in iteration order, each key then its value
(`serialize_key` / `serialize_value` calls). -/
def serializePairs (bo : BOrder) : List (Value × Value) → List Nat
  | [] => []
  | (k, v) :: r => serialize bo k ++ serialize bo v ++ serializePairs bo r

end

/-- The `SeqAccess` cursor of `deserialize_tuple`: decode `n` elements with the
element decoder `f`, threading the reader; the remaining-count is decremented on
each element and the cursor reports exhaustion at zero. -/
def deserializeElems (f : List Nat → DOut Value) : Nat → List Nat → DOut (List Value)
  | 0, src => .ok [] src
  | n + 1, src =>
    match f src with
    | .ok x rest =>
      match deserializeElems f n rest with
      | .ok xs rest2 => .ok (x :: xs) rest2
      | .fail e => .fail e
      | .panicked => .panicked
    | .fail e => .fail e
    | .panicked => .panicked

/-- The `MapAccess` cursor of `deserialize_map`: decode `n` key/value pairs,
key first (`next_key_seed`) then value (`next_value_seed`). -/
def deserializePairs (fk fv : List Nat → DOut Value) :
    Nat → List Nat → DOut (List (Value × Value))
  | 0, src => .ok [] src
  | n + 1, src =>
    match fk src with
    | .ok k rest =>
      match fv rest with
      | .ok v rest2 =>
        match deserializePairs fk fv n rest2 with
        | .ok ps rest3 => .ok ((k, v) :: ps) rest3
        | .fail e => .fail e
        | .panicked => .panicked
      | .fail e => .fail e
      | .panicked => .panicked
    | .fail e => .fail e
    | .panicked => .panicked

mutual

/-- The deserializer of deserialize.rs driven by the statically known shape,
reading from the `&[u8]` reader. Mirrors each `deserialize_*` method:
`bool` reads a `u8` and accepts only 0/1; fixed-width scalars are
`read_range(w)` + `B::read_*`; `char` follows `deserialize_char`
(leading byte, width table, remaining bytes, `str::from_utf8` validation);
str/bytes read their 16-bit length (`get_str_length`/`get_slice_length`) then
`read_range(length)`, with UTF-8 validation for str only; Option reads its tag
byte and accepts only 0/1; unit reads nothing; sequences read their 16-bit
count (`get_seq_len`) and feed it to the tuple path; tuples/structs decode
their fields positionally with no prefix. A map reads its pair count via the
generic `usize` deserialize (deserialize.rs line 394), which serde dispatches
to `deserialize_u64`: EIGHT bytes via `read_range(8)` + `B::read_u64` — not the
one-byte `MapLenType` the encoder writes. Enums go to `deserializeVariant`
(spec-modelled, see there). -/
def deserialize (bo : BOrder) : Shape → List Nat → DOut Value
  | .sbool, src =>
    match readByte src with
    | .ok b rest =>
      if b = 1 then .ok (.vbool true) rest
      else if b = 0 then .ok (.vbool false) rest
      else .fail (.InvalidBoolValue b)
    | .fail e => .fail e
    | .panicked => .panicked
  | .suint w, src =>
    match read_range w src with
    | .ok buf rest => .ok (.vuint w (readBytes bo buf)) rest
    | .fail e => .fail e
    | .panicked => .panicked
  | .sint w, src =>
    match read_range w src with
    | .ok buf rest => .ok (.vint w (fromUnsigned w (readBytes bo buf))) rest
    | .fail e => .fail e
    | .panicked => .panicked
  | .sfloat w, src =>
    match read_range w src with
    | .ok buf rest => .ok (.vfloat w (readBytes bo buf)) rest
    | .fail e => .fail e
    | .panicked => .panicked
  | .schar, src =>
    match readByte src with
    | .ok b0 rest =>
      if utf8_char_width b0 = 1 then .ok (.vchar b0) rest
      else if utf8_char_width b0 = 0 then .fail .InvalidCharEncoding
      else
        match read_range (utf8_char_width b0 - 1) rest with
        | .ok tail rest2 =>
          if utf8Valid (b0 :: tail) then
            match utf8DecodeOne (b0 :: tail) with
            | some (c, _) => .ok (.vchar c) rest2
            | none => .fail .InvalidCharEncoding
          else .fail .Utf8
        | .fail e => .fail e
        | .panicked => .panicked
    | .fail e => .fail e
    | .panicked => .panicked
  | .sstr, src =>
    match read_range 2 src with
    | .ok lb rest =>
      match read_range (readBytes bo lb) rest with
      | .ok buf rest2 =>
        if utf8Valid buf then .ok (.vstr buf) rest2 else .fail .Utf8
      | .fail e => .fail e
      | .panicked => .panicked
    | .fail e => .fail e
    | .panicked => .panicked
  | .sbytes, src =>
    match read_range 2 src with
    | .ok lb rest =>
      match read_range (readBytes bo lb) rest with
      | .ok buf rest2 => .ok (.vbytes buf) rest2
      | .fail e => .fail e
      | .panicked => .panicked
    | .fail e => .fail e
    | .panicked => .panicked
  | .soption t, src =>
    match readByte src with
    | .ok v rest =>
      if v = 0 then .ok .vnone rest
      else if v = 1 then
        match deserialize bo t rest with
        | .ok x rest2 => .ok (.vsome x) rest2
        | .fail e => .fail e
        | .panicked => .panicked
      else .fail (.InvalidOptionValue v)
    | .fail e => .fail e
    | .panicked => .panicked
  | .sunit, src => .ok .vunit src
  | .sseq t, src =>
    match read_range 2 src with
    | .ok lb rest =>
      match deserializeElems (fun s => deserialize bo t s) (readBytes bo lb) rest with
      | .ok xs rest2 => .ok (.vseq xs) rest2
      | .fail e => .fail e
      | .panicked => .panicked
    | .fail e => .fail e
    | .panicked => .panicked
  | .stuple ts, src =>
    match deserializeShapes bo ts src with
    | .ok xs rest => .ok (.vtuple xs) rest
    | .fail e => .fail e
    | .panicked => .panicked
  | .smap k v, src =>
    match read_range 8 src with
    | .ok lb rest =>
      match
        deserializePairs (fun s => deserialize bo k s) (fun s => deserialize bo v s)
          (readBytes bo lb) rest
      with
      | .ok ps rest2 => .ok (.vmap ps) rest2
      | .fail e => .fail e
      | .panicked => .panicked
    | .fail e => .fail e
    | .panicked => .panicked
  | .senum vars, src =>
    match readByte src with
    | .ok idx rest =>
      match deserializeVariant bo vars idx rest with
      | .ok p rest2 => .ok (.venum idx p) rest2
      | .fail e => .fail e
      | .panicked => .panicked
    | .fail e => .fail e
    | .panicked => .panicked

/-- The fields of a tuple/struct decoded in declaration order
(`deserialize_tuple` driving one decode per statically known field shape). -/
def deserializeShapes (bo : BOrder) : List Shape → List Nat → DOut (List Value)
  | [], src => .ok [] src
  | t :: ts, src =>
    match deserialize bo t src with
    | .ok x rest =>
      match deserializeShapes bo ts rest with
      | .ok xs rest2 => .ok (x :: xs) rest2
      | .fail e => .fail e
      | .panicked => .panicked
    | .fail e => .fail e
    | .panicked => .panicked

/-- Modelled from the spec: `deserialize_enum` in src/src/deserialize.rs
(lines 415-422) is an `unimplemented!()` stub; the spec states that the
complete deserializer decodes an enum as a 1-byte variant index followed by the
payload of the variant that index names ("1 byte variant index + encoding of
the variant's payload as tuple/struct") and says to follow the complete
version. This selector picks the payload shape named by the already-read index
out of the statically known variant list and decodes it. An out-of-range index
has no `DeserializeError` case; serde reports an unknown variant through
`Error::custom`, which this crate implements as `panic!`, hence `.panicked`. -/
def deserializeVariant (bo : BOrder) : List Shape → Nat → List Nat → DOut Value
  | [], _, _ => .panicked
  | sh :: _, 0, src => deserialize bo sh src
  | _ :: rest, n + 1, src => deserializeVariant bo rest n src

end

mutual

/-- Shape conformance plus machine-representability of a value: scalar bit
patterns fit their width (`n < 2^(8*w)`, two's-complement range for signed with
`1 ≤ w` as in the source's i8..i128), chars are Unicode scalar values, strings
are well-formed UTF-8, and all length prefixes fit their wire width (16-bit for
str/bytes/seq, 8-bit for maps and variant indices). These are exactly the
invariants the corresponding Rust types (`u16`, `&str`, ...) carry by
construction, plus the prefix-width bounds. -/
def validFor : Shape → Value → Bool
  | .sbool, .vbool _ => true
  | .suint w, .vuint w2 n => w2 == w && decide (n < 2 ^ (8 * w))
  | .sint w, .vint w2 v =>
    w2 == w && decide (1 ≤ w) &&
      decide (-((2 : Int) ^ (8 * w - 1)) ≤ v) && decide (v < (2 : Int) ^ (8 * w - 1))
  | .sfloat w, .vfloat w2 bits => w2 == w && decide (bits < 2 ^ (8 * w))
  | .schar, .vchar c => decide (c < 0xD800) || (decide (0xE000 ≤ c) && decide (c < 0x110000))
  | .sstr, .vstr s => utf8Valid s && decide (s.length < 2 ^ 16)
  | .sbytes, .vbytes s => decide (s.length < 2 ^ 16)
  | .soption _, .vnone => true
  | .soption t, .vsome v => validFor t v
  | .sunit, .vunit => true
  | .sseq t, .vseq xs => decide (xs.length < 2 ^ 16) && validForList t xs
  | .stuple ts, .vtuple xs => validForZip ts xs
  | .smap k v, .vmap ps => decide (ps.length < 2 ^ 8) && validForPairs k v ps
  | .senum vars, .venum idx p =>
    match vars[idx]? with
    | some sh => decide (idx < 2 ^ 8) && validFor sh p
    | none => false
  | _, _ => false

/-- All elements of a homogeneous sequence conform to the element shape. -/
def validForList (t : Shape) : List Value → Bool
  | [] => true
  | x :: r => validFor t x && validForList t r

/-- Tuple fields conform positionally to the tuple's field shapes. -/
def validForZip : List Shape → List Value → Bool
  | [], [] => true
  | t :: ts, x :: xs => validFor t x && validForZip ts xs
  | _, _ => false

/-- All map entries conform to the key and value shapes. -/
def validForPairs (k v : Shape) : List (Value × Value) → Bool
  | [] => true
  | (a, b) :: r => validFor k a && validFor v b && validForPairs k v r

end

mutual

/-- The value contains no map anywhere. -/
def noMap : Value → Bool
  | .vsome v => noMap v
  | .vseq xs => noMapList xs
  | .vtuple xs => noMapList xs
  | .vmap _ => false
  | .venum _ p => noMap p
  | _ => true

/-- No element of the list contains a map. -/
def noMapList : List Value → Bool
  | [] => true
  | x :: r => noMap x && noMapList r

end

/-- Model validation: the `simple_struct` test of tests/simple.rs. The struct
{a: u8 = 1, b: u16 = 2, c: u32 = 3, d: u64 = 4, e: u128 = 5, opt: Some(6u8),
buff: [7, 8, 9]} with NetworkEndian (big-endian) order encodes to the expected
bytes (the fixed array encodes as a tuple with no length prefix) and decodes
back to itself. -/
theorem model_simple_struct :
    serialize .be (.vtuple [.vuint 1 1, .vuint 2 2, .vuint 4 3, .vuint 8 4, .vuint 16 5,
      .vsome (.vuint 1 6), .vtuple [.vuint 1 7, .vuint 1 8, .vuint 1 9]]) =
      [1, 0, 2, 0, 0, 0, 3, 0, 0, 0, 0, 0, 0, 0, 4,
       0, 0, 0, 0, 0, 0, 0, 0, 0, 0, 0, 0, 0, 0, 0, 5, 1, 6, 7, 8, 9] ∧
    deserialize .be
        (.stuple [.suint 1, .suint 2, .suint 4, .suint 8, .suint 16, .soption (.suint 1),
          .stuple [.suint 1, .suint 1, .suint 1]])
        [1, 0, 2, 0, 0, 0, 3, 0, 0, 0, 0, 0, 0, 0, 4,
         0, 0, 0, 0, 0, 0, 0, 0, 0, 0, 0, 0, 0, 0, 0, 5, 1, 6, 7, 8, 9] =
      .ok (.vtuple [.vuint 1 1, .vuint 2 2, .vuint 4 3, .vuint 8 4, .vuint 16 5,
        .vsome (.vuint 1 6), .vtuple [.vuint 1 7, .vuint 1 8, .vuint 1 9]]) [] :=
  ⟨rfl, rfl⟩

/-- Model validation: the `simple_tuple` test of tests/simple.rs. The tuple
(1u16, 2u32, b"test", "tesT") with NetworkEndian order encodes to the expected
bytes and decodes back to itself, the str and byte-string contents borrowed
from the input. -/
theorem model_simple_tuple :
    serialize .be (.vtuple [.vuint 2 1, .vuint 4 2, .vbytes [116, 101, 115, 116],
      .vstr [116, 101, 115, 84]]) =
      [0, 1, 0, 0, 0, 2, 0, 4, 116, 101, 115, 116, 0, 4, 116, 101, 115, 84] ∧
    deserialize .be (.stuple [.suint 2, .suint 4, .sbytes, .sstr])
        [0, 1, 0, 0, 0, 2, 0, 4, 116, 101, 115, 116, 0, 4, 116, 101, 115, 84] =
      .ok (.vtuple [.vuint 2 1, .vuint 4 2, .vbytes [116, 101, 115, 116],
        .vstr [116, 101, 115, 84]]) [] :=
  ⟨rfl, rfl⟩

theorem leBytes_length (w n : Nat) : (leBytes w n).length = w := by
  induction w generalizing n with
  | zero => rfl
  | succ w ih => simp [leBytes, ih]

theorem leRead_leBytes (w n : Nat) (h : n < 2 ^ (8 * w)) : leRead (leBytes w n) = n := by
  induction w generalizing n with
  | zero =>
    simp only [leBytes, leRead]
    simp only [Nat.mul_zero, pow_zero] at h
    omega
  | succ w ih =>
    have hpow : (2 : Nat) ^ (8 * (w + 1)) = 2 ^ (8 * w) * 256 := by
      rw [Nat.mul_succ, pow_add]
      norm_num
    have hlt : n / 256 < 2 ^ (8 * w) := Nat.div_lt_of_lt_mul (by omega)
    simp only [leBytes, leRead, ih _ hlt]
    omega

theorem writeBytes_length (bo : BOrder) (w n : Nat) : (writeBytes bo w n).length = w := by
  cases bo <;> simp [writeBytes, leBytes_length]

theorem readBytes_writeBytes (bo : BOrder) (w n : Nat) (h : n < 2 ^ (8 * w)) :
    readBytes bo (writeBytes bo w n) = n := by
  cases bo <;> simp [readBytes, writeBytes, List.reverse_reverse, leRead_leBytes _ _ h]

theorem read_range_exact (n : Nat) (a rest : List Nat) (h : a.length = n) :
    read_range n (a ++ rest) = .ok a rest := by
  subst h
  unfold read_range
  rw [if_pos (by simp), List.take_left, List.drop_left]

theorem readByte_cons (b : Nat) (rest : List Nat) : readByte (b :: rest) = .ok b rest := by
  simp [readByte, read_range]

theorem toUnsigned_lt (w : Nat) (v : Int) : toUnsigned w v < 2 ^ (8 * w) := by
  unfold toUnsigned
  have hpos : (0 : Int) < 2 ^ (8 * w) := by positivity
  have hlt := Int.emod_lt_of_pos v hpos
  have hge := Int.emod_nonneg v (by positivity)
  have hcast : ((2 ^ (8 * w) : Nat) : Int) = (2 : Int) ^ (8 * w) := by push_cast; ring
  omega

theorem fromUnsigned_toUnsigned (w : Nat) (v : Int) (hw : 1 ≤ w)
    (h1 : -((2 : Int) ^ (8 * w - 1)) ≤ v) (h2 : v < (2 : Int) ^ (8 * w - 1)) :
    fromUnsigned w (toUnsigned w v) = v := by
  have hsplit : (2 : Int) ^ (8 * w) = 2 ^ (8 * w - 1) * 2 := by
    rw [← pow_succ]
    congr 1
    omega
  have hposA : (0 : Int) < 2 ^ (8 * w - 1) := by positivity
  have hcast1 : ((2 ^ (8 * w - 1) : Nat) : Int) = (2 : Int) ^ (8 * w - 1) := by push_cast; ring
  have hcast2 : ((2 ^ (8 * w) : Nat) : Int) = (2 : Int) ^ (8 * w) := by push_cast; ring
  unfold toUnsigned fromUnsigned
  rcases le_or_lt 0 v with hv | hv
  · rw [Int.emod_eq_of_lt hv (by omega)]
    rw [if_pos (by omega)]
    omega
  · have hmod : v % 2 ^ (8 * w) = v + 2 ^ (8 * w) := by
      have h3 : (v + 1 * 2 ^ (8 * w)) % 2 ^ (8 * w) = v % 2 ^ (8 * w) := Int.add_mul_emod_self
      have h4 : (v + 2 ^ (8 * w)) % 2 ^ (8 * w) = v + 2 ^ (8 * w) :=
        Int.emod_eq_of_lt (by omega) (by omega)
      rw [one_mul] at h3
      rw [← h3]
      exact h4
    rw [hmod, if_neg (by omega)]
    omega

theorem lor_C0 : ∀ x, x < 32 → x ||| 0xC0 = 0xC0 + x := by decide

theorem lor_80 : ∀ x, x < 64 → x ||| 0x80 = 0x80 + x := by decide

theorem lor_E0 : ∀ x, x < 16 → x ||| 0xE0 = 0xE0 + x := by decide

theorem lor_F0 : ∀ x, x < 8 → x ||| 0xF0 = 0xF0 + x := by decide

theorem and_1F (x : Nat) : x &&& 0x1F = x % 32 := by
  have h := Nat.and_pow_two_sub_one_eq_mod x 5
  norm_num at h
  exact h

theorem and_3F (x : Nat) : x &&& 0x3F = x % 64 := by
  have h := Nat.and_pow_two_sub_one_eq_mod x 6
  norm_num at h
  exact h

theorem and_0F (x : Nat) : x &&& 0x0F = x % 16 := by
  have h := Nat.and_pow_two_sub_one_eq_mod x 4
  norm_num at h
  exact h

theorem and_07 (x : Nat) : x &&& 0x07 = x % 8 := by
  have h := Nat.and_pow_two_sub_one_eq_mod x 3
  norm_num at h
  exact h

theorem shr6 (x : Nat) : x >>> 6 = x / 64 := by
  have h := Nat.shiftRight_eq_div_pow x 6
  norm_num at h
  exact h

theorem shr12 (x : Nat) : x >>> 12 = x / 4096 := by
  have h := Nat.shiftRight_eq_div_pow x 12
  norm_num at h
  exact h

theorem shr18 (x : Nat) : x >>> 18 = x / 262144 := by
  have h := Nat.shiftRight_eq_div_pow x 18
  norm_num at h
  exact h

theorem width_one : ∀ b, b < 0x80 → utf8_char_width b = 1 := by decide

theorem width_two : ∀ b, b < 0xE0 → 0xC2 ≤ b → utf8_char_width b = 2 := by decide

theorem width_three : ∀ b, b < 0xF0 → 0xE0 ≤ b → utf8_char_width b = 3 := by decide

theorem width_four : ∀ b, b < 0xF5 → 0xF0 ≤ b → utf8_char_width b = 4 := by decide

theorem encode_utf8_one (c : Nat) (h : c < 0x80) : encode_utf8 c = [c] := by
  unfold encode_utf8
  rw [if_pos h]

theorem encode_utf8_two (c : Nat) (h1 : 0x80 ≤ c) (h2 : c < 0x800) :
    encode_utf8 c = [0xC0 + c / 64, 0x80 + c % 64] := by
  unfold encode_utf8
  rw [if_neg (by omega), if_pos h2]
  rw [shr6, and_1F, and_3F]
  rw [Nat.mod_eq_of_lt (by omega), lor_C0 _ (by omega), lor_80 _ (by omega)]

theorem encode_utf8_three (c : Nat) (h1 : 0x800 ≤ c) (h2 : c < 0x10000) :
    encode_utf8 c = [0xE0 + c / 4096, 0x80 + c / 64 % 64, 0x80 + c % 64] := by
  unfold encode_utf8
  rw [if_neg (by omega), if_neg (by omega), if_pos h2]
  rw [shr12, shr6, and_0F, and_3F, and_3F]
  rw [Nat.mod_eq_of_lt (by omega), lor_E0 _ (by omega), lor_80 _ (by omega),
    lor_80 _ (by omega)]

theorem encode_utf8_four (c : Nat) (h1 : 0x10000 ≤ c) (h2 : c < 0x110000) :
    encode_utf8 c = [0xF0 + c / 262144, 0x80 + c / 4096 % 64, 0x80 + c / 64 % 64, 0x80 + c % 64] := by
  unfold encode_utf8
  rw [if_neg (by omega), if_neg (by omega), if_neg (by omega)]
  rw [shr18, shr12, shr6, and_07, and_3F, and_3F, and_3F]
  rw [Nat.mod_eq_of_lt (by omega), lor_F0 _ (by omega), lor_80 _ (by omega),
    lor_80 _ (by omega), lor_80 _ (by omega)]

theorem deserialize_char_one (bo : BOrder) (c : Nat) (rest : List Nat) (h : c < 0x80) :
    deserialize bo .schar (encode_utf8 c ++ rest) = .ok (.vchar c) rest := by
  rw [encode_utf8_one c h]
  simp [deserialize, readByte_cons, width_one c h]

theorem deserialize_char_two (bo : BOrder) (c : Nat) (rest : List Nat)
    (h1 : 0x80 ≤ c) (h2 : c < 0x800) :
    deserialize bo .schar (encode_utf8 c ++ rest) = .ok (.vchar c) rest := by
  rw [encode_utf8_two c h1 h2]
  have hw : utf8_char_width (0xC0 + c / 64) = 2 := width_two _ (by omega) (by omega)
  have hr : read_range 1 ((0x80 + c % 64) :: rest) = .ok [0x80 + c % 64] rest := by
    simpa using read_range_exact 1 [0x80 + c % 64] rest rfl
  have hc1 : isCont (0x80 + c % 64) = true := by
    simp [isCont]
    omega
  have hvalid : utf8Valid [0xC0 + c / 64, 0x80 + c % 64] = true := by
    simp only [utf8Valid]
    rw [if_neg (by omega), if_neg (by omega), if_pos (by omega)]
    simp [utf8Valid2, utf8Valid, hc1]
  have hdec : utf8DecodeOne [0xC0 + c / 64, 0x80 + c % 64] = some (c, []) := by
    simp only [utf8DecodeOne]
    rw [if_neg (by omega), if_neg (by omega), if_pos (by omega)]
    simp only [utf8Dec2]
    rw [if_pos hc1]
    simp
    omega
  simp [deserialize, readByte_cons, hw, hr, hvalid, hdec]

theorem deserialize_char_three (bo : BOrder) (c : Nat) (rest : List Nat)
    (h1 : 0x800 ≤ c) (h2 : c < 0x10000) (hs : c < 0xD800 ∨ 0xE000 ≤ c) :
    deserialize bo .schar (encode_utf8 c ++ rest) = .ok (.vchar c) rest := by
  rw [encode_utf8_three c h1 h2]
  have hw : utf8_char_width (0xE0 + c / 4096) = 3 := width_three _ (by omega) (by omega)
  have hr : read_range 2 ((0x80 + c / 64 % 64) :: (0x80 + c % 64) :: rest) =
      .ok [0x80 + c / 64 % 64, 0x80 + c % 64] rest := by
    simpa using read_range_exact 2 [0x80 + c / 64 % 64, 0x80 + c % 64] rest rfl
  have hv3 : valid3Second (0xE0 + c / 4096) (0x80 + c / 64 % 64) = true := by
    unfold valid3Second
    by_cases h0 : 0xE0 + c / 4096 = 0xE0
    · rw [if_pos h0]
      simp
      omega
    · rw [if_neg h0]
      by_cases hD : 0xE0 + c / 4096 = 0xED
      · rw [if_pos hD]
        simp
        omega
      · rw [if_neg hD]
        simp [isCont]
        omega
  have hc2 : isCont (0x80 + c % 64) = true := by
    simp [isCont]
    omega
  have hvalid : utf8Valid [0xE0 + c / 4096, 0x80 + c / 64 % 64, 0x80 + c % 64] = true := by
    simp only [utf8Valid]
    rw [if_neg (by omega), if_neg (by omega), if_neg (by omega), if_pos (by omega)]
    simp [utf8Valid3, utf8Valid, hv3, hc2]
  have hdec : utf8DecodeOne [0xE0 + c / 4096, 0x80 + c / 64 % 64, 0x80 + c % 64] =
      some (c, []) := by
    simp only [utf8DecodeOne]
    rw [if_neg (by omega), if_neg (by omega), if_neg (by omega), if_pos (by omega)]
    simp only [utf8Dec3]
    rw [if_pos (by simp [hv3, hc2])]
    simp
    omega
  simp [deserialize, readByte_cons, hw, hr, hvalid, hdec]

theorem deserialize_char_four (bo : BOrder) (c : Nat) (rest : List Nat)
    (h1 : 0x10000 ≤ c) (h2 : c < 0x110000) :
    deserialize bo .schar (encode_utf8 c ++ rest) = .ok (.vchar c) rest := by
  rw [encode_utf8_four c h1 h2]
  have hw : utf8_char_width (0xF0 + c / 262144) = 4 := width_four _ (by omega) (by omega)
  have hr : read_range 3
      ((0x80 + c / 4096 % 64) :: (0x80 + c / 64 % 64) :: (0x80 + c % 64) :: rest) =
      .ok [0x80 + c / 4096 % 64, 0x80 + c / 64 % 64, 0x80 + c % 64] rest := by
    simpa using
      read_range_exact 3 [0x80 + c / 4096 % 64, 0x80 + c / 64 % 64, 0x80 + c % 64] rest rfl
  have hv4 : valid4Second (0xF0 + c / 262144) (0x80 + c / 4096 % 64) = true := by
    unfold valid4Second
    by_cases h0 : 0xF0 + c / 262144 = 0xF0
    · rw [if_pos h0]
      simp
      omega
    · rw [if_neg h0]
      by_cases h4 : 0xF0 + c / 262144 = 0xF4
      · rw [if_pos h4]
        simp
        omega
      · rw [if_neg h4]
        simp [isCont]
        omega
  have hc2 : isCont (0x80 + c / 64 % 64) = true := by
    simp [isCont]
    omega
  have hc3 : isCont (0x80 + c % 64) = true := by
    simp [isCont]
    omega
  have hvalid :
      utf8Valid [0xF0 + c / 262144, 0x80 + c / 4096 % 64, 0x80 + c / 64 % 64, 0x80 + c % 64] =
        true := by
    simp only [utf8Valid]
    rw [if_neg (by omega), if_neg (by omega), if_neg (by omega), if_neg (by omega),
      if_pos (by omega)]
    simp [utf8Valid4, utf8Valid, hv4, hc2, hc3]
  have hdec :
      utf8DecodeOne
          [0xF0 + c / 262144, 0x80 + c / 4096 % 64, 0x80 + c / 64 % 64, 0x80 + c % 64] =
        some (c, []) := by
    simp only [utf8DecodeOne]
    rw [if_neg (by omega), if_neg (by omega), if_neg (by omega), if_neg (by omega),
      if_pos (by omega)]
    simp only [utf8Dec4]
    rw [if_pos (by simp [hv4, hc2, hc3])]
    simp
    omega
  simp [deserialize, readByte_cons, hw, hr, hvalid, hdec]

/-- Encoding a Unicode scalar value with `encode_utf8` and decoding it back with
`deserialize_char` (width table, remaining bytes, UTF-8 validation) returns the
same scalar and consumes exactly its bytes. -/
theorem deserialize_char_encode (bo : BOrder) (c : Nat) (rest : List Nat)
    (hval : c < 0xD800 ∨ (0xE000 ≤ c ∧ c < 0x110000)) :
    deserialize bo .schar (encode_utf8 c ++ rest) = .ok (.vchar c) rest := by
  by_cases hA : c < 0x80
  · exact deserialize_char_one bo c rest hA
  · by_cases hB : c < 0x800
    · exact deserialize_char_two bo c rest (by omega) hB
    · by_cases hC : c < 0x10000
      · exact deserialize_char_three bo c rest (by omega) hC (by omega)
      · exact deserialize_char_four bo c rest (by omega) (by omega)

theorem validForList_mem (t : Shape) (xs : List Value) (h : validForList t xs = true) :
    ∀ x ∈ xs, validFor t x = true := by
  induction xs with
  | nil => simp
  | cons y r ih =>
    simp only [validForList, Bool.and_eq_true] at h
    intro x hx
    rcases List.mem_cons.mp hx with rfl | hx2
    · exact h.1
    · exact ih h.2 x hx2

theorem noMapList_mem (xs : List Value) (h : noMapList xs = true) :
    ∀ x ∈ xs, noMap x = true := by
  induction xs with
  | nil => simp
  | cons y r ih =>
    simp only [noMapList, Bool.and_eq_true] at h
    intro x hx
    rcases List.mem_cons.mp hx with rfl | hx2
    · exact h.1
    · exact ih h.2 x hx2

theorem deserializeElems_serializeList (bo : BOrder) (f : List Nat → DOut Value)
    (xs : List Value) (rest : List Nat)
    (H : ∀ x ∈ xs, ∀ r, f (serialize bo x ++ r) = .ok x r) :
    deserializeElems f xs.length (serializeList bo xs ++ rest) = .ok xs rest := by
  induction xs generalizing rest with
  | nil => rfl
  | cons x r ih =>
    have h1 := H x (List.mem_cons_self x r)
    have h2 := ih rest (fun y hy r2 => H y (List.mem_cons_of_mem x hy) r2)
    simp only [serializeList, List.length_cons, List.append_assoc, deserializeElems, h1, h2]

theorem deserializeShapes_serializeList (bo : BOrder) (ts : List Shape) (xs : List Value)
    (rest : List Nat) (hzip : validForZip ts xs = true)
    (H : ∀ x ∈ xs, ∀ sh r, validFor sh x = true →
      deserialize bo sh (serialize bo x ++ r) = .ok x r) :
    deserializeShapes bo ts (serializeList bo xs ++ rest) = .ok xs rest := by
  induction ts generalizing xs rest with
  | nil =>
    cases xs with
    | nil => rfl
    | cons x r => exact absurd hzip Bool.false_ne_true
  | cons t ts ih =>
    cases xs with
    | nil => exact absurd hzip Bool.false_ne_true
    | cons x r =>
      simp only [validForZip, Bool.and_eq_true] at hzip
      have h1 : ∀ r2, deserialize bo t (serialize bo x ++ r2) = .ok x r2 :=
        fun r2 => H x (List.mem_cons_self x r) t r2 hzip.1
      have h2 := ih r rest hzip.2 (fun y hy sh r2 hv => H y (List.mem_cons_of_mem x hy) sh r2 hv)
      simp only [serializeList, List.append_assoc, deserializeShapes, h1, h2]

theorem deserializeVariant_get (bo : BOrder) (vars : List Shape) (idx : Nat) (sh : Shape)
    (src : List Nat) (h : vars[idx]? = some sh) :
    deserializeVariant bo vars idx src = deserialize bo sh src := by
  induction vars generalizing idx with
  | nil => simp at h
  | cons t ts ih =>
    cases idx with
    | zero =>
      simp only [List.getElem?_cons_zero, Option.some.injEq] at h
      subst h
      rfl
    | succ n =>
      simp only [List.getElem?_cons_succ] at h
      exact ih n h

/-- Round-trip workhorse: serializing any map-free, shape-conforming,
machine-representable value and deserializing the result at the same shape and
byte order returns the value and consumes exactly its bytes. Proved by strong
induction on the size of the value. -/
theorem roundtrip_aux :
    ∀ (n : Nat) (v : Value) (sh : Shape) (bo : BOrder) (rest : List Nat),
      sizeOf v ≤ n → validFor sh v = true → noMap v = true →
      deserialize bo sh (serialize bo v ++ rest) = .ok v rest := by
  intro n
  induction n with
  | zero =>
    intro v sh bo rest hsz hval hnm
    exfalso
    cases v <;> simp at hsz
  | succ n ih =>
    intro v sh bo rest hsz hval hnm
    cases v with
    | vbool b =>
      cases sh
      all_goals try exact absurd hval Bool.false_ne_true
      cases b <;> simp [serialize, deserialize, readByte_cons]
    | vuint w2 m =>
      cases sh
      all_goals try exact absurd hval Bool.false_ne_true
      rename_i w
      simp only [validFor, Bool.and_eq_true, beq_iff_eq, decide_eq_true_eq] at hval
      obtain ⟨rfl, hlt⟩ := hval
      have hr := read_range_exact w2 (writeBytes bo w2 m) rest (writeBytes_length bo w2 m)
      simp [serialize, deserialize, hr, readBytes_writeBytes bo w2 m hlt]
    | vint w2 z =>
      cases sh
      all_goals try exact absurd hval Bool.false_ne_true
      rename_i w
      simp only [validFor, Bool.and_eq_true, beq_iff_eq, decide_eq_true_eq] at hval
      obtain ⟨⟨⟨rfl, hw⟩, hlo⟩, hhi⟩ := hval
      have hr := read_range_exact w2 (writeBytes bo w2 (toUnsigned w2 z)) rest
        (writeBytes_length bo w2 (toUnsigned w2 z))
      simp [serialize, deserialize, hr, readBytes_writeBytes bo w2 _ (toUnsigned_lt w2 z),
        fromUnsigned_toUnsigned w2 z hw hlo hhi]
    | vfloat w2 bits =>
      cases sh
      all_goals try exact absurd hval Bool.false_ne_true
      rename_i w
      simp only [validFor, Bool.and_eq_true, beq_iff_eq, decide_eq_true_eq] at hval
      obtain ⟨rfl, hlt⟩ := hval
      have hr := read_range_exact w2 (writeBytes bo w2 bits) rest (writeBytes_length bo w2 bits)
      simp [serialize, deserialize, hr, readBytes_writeBytes bo w2 bits hlt]
    | vchar c =>
      cases sh
      all_goals try exact absurd hval Bool.false_ne_true
      simp only [validFor, Bool.or_eq_true, Bool.and_eq_true, decide_eq_true_eq] at hval
      exact deserialize_char_encode bo c rest hval
    | vstr s =>
      cases sh
      all_goals try exact absurd hval Bool.false_ne_true
      simp only [validFor, Bool.and_eq_true, decide_eq_true_eq] at hval
      have h16 : s.length < 2 ^ (8 * 2) := by
        have := hval.2
        norm_num at this ⊢
        omega
      show deserialize bo .sstr ((writeBytes bo 2 (s.length % 2 ^ 16) ++ s) ++ rest) = _
      rw [Nat.mod_eq_of_lt hval.2, List.append_assoc]
      have hr2 := read_range_exact 2 (writeBytes bo 2 s.length) (s ++ rest)
        (writeBytes_length bo 2 s.length)
      have hrS := read_range_exact s.length s rest rfl
      simp [deserialize, hr2, readBytes_writeBytes bo 2 s.length h16, hrS, hval.1]
    | vbytes s =>
      cases sh
      all_goals try exact absurd hval Bool.false_ne_true
      simp only [validFor, decide_eq_true_eq] at hval
      have h16 : s.length < 2 ^ (8 * 2) := by
        norm_num at hval ⊢
        omega
      show deserialize bo .sbytes ((writeBytes bo 2 (s.length % 2 ^ 16) ++ s) ++ rest) = _
      rw [Nat.mod_eq_of_lt hval, List.append_assoc]
      have hr2 := read_range_exact 2 (writeBytes bo 2 s.length) (s ++ rest)
        (writeBytes_length bo 2 s.length)
      have hrS := read_range_exact s.length s rest rfl
      simp [deserialize, hr2, readBytes_writeBytes bo 2 s.length h16, hrS]
    | vnone =>
      cases sh
      all_goals try exact absurd hval Bool.false_ne_true
      simp [serialize, deserialize, readByte_cons]
    | vsome v =>
      cases sh
      all_goals try exact absurd hval Bool.false_ne_true
      rename_i t
      simp only [validFor] at hval
      have hszv : sizeOf v ≤ n := by
        simp at hsz
        omega
      have hnmv : noMap v = true := by
        simpa [noMap] using hnm
      have hrec := ih v t bo rest hszv hval hnmv
      simp [serialize, deserialize, readByte_cons, hrec]
    | vunit =>
      cases sh
      all_goals try exact absurd hval Bool.false_ne_true
      simp [serialize, deserialize]
    | vseq xs =>
      cases sh
      all_goals try exact absurd hval Bool.false_ne_true
      rename_i t
      simp only [validFor, Bool.and_eq_true, decide_eq_true_eq] at hval
      have hnml : noMapList xs = true := by
        simpa [noMap] using hnm
      have h16 : xs.length < 2 ^ (8 * 2) := by
        have := hval.1
        norm_num at this ⊢
        omega
      have H : ∀ x ∈ xs, ∀ r, deserialize bo t (serialize bo x ++ r) = .ok x r := by
        intro x hx r
        have hszx : sizeOf x ≤ n := by
          have hm := List.sizeOf_lt_of_mem hx
          have hspec : sizeOf (Value.vseq xs) = 1 + sizeOf xs := by simp
          omega
        exact ih x t bo r hszx (validForList_mem t xs hval.2 x hx) (noMapList_mem xs hnml x hx)
      have hel := deserializeElems_serializeList bo (fun s => deserialize bo t s) xs rest H
      show deserialize bo (.sseq t)
        ((writeBytes bo 2 (xs.length % 2 ^ 16) ++ serializeList bo xs) ++ rest) = _
      rw [Nat.mod_eq_of_lt hval.1, List.append_assoc]
      have hr2 := read_range_exact 2 (writeBytes bo 2 xs.length) (serializeList bo xs ++ rest)
        (writeBytes_length bo 2 xs.length)
      simp [deserialize, hr2, readBytes_writeBytes bo 2 xs.length h16, hel]
    | vtuple xs =>
      cases sh
      all_goals try exact absurd hval Bool.false_ne_true
      rename_i ts
      simp only [validFor] at hval
      have hnml : noMapList xs = true := by
        simpa [noMap] using hnm
      have H : ∀ x ∈ xs, ∀ sh2 r, validFor sh2 x = true →
          deserialize bo sh2 (serialize bo x ++ r) = .ok x r := by
        intro x hx sh2 r hv
        have hszx : sizeOf x ≤ n := by
          have hm := List.sizeOf_lt_of_mem hx
          have hspec : sizeOf (Value.vtuple xs) = 1 + sizeOf xs := by simp
          omega
        exact ih x sh2 bo r hszx hv (noMapList_mem xs hnml x hx)
      have hsh := deserializeShapes_serializeList bo ts xs rest hval H
      simp [serialize, deserialize, hsh]
    | vmap ps =>
      cases sh
      all_goals try exact absurd hval Bool.false_ne_true
      exact absurd hnm Bool.false_ne_true
    | venum idx p =>
      cases sh
      all_goals try exact absurd hval Bool.false_ne_true
      rename_i vars
      cases hget : vars[idx]? with
      | none =>
        simp only [validFor, hget] at hval
        exact absurd hval Bool.false_ne_true
      | some sh2 =>
        simp only [validFor, hget, Bool.and_eq_true, decide_eq_true_eq] at hval
        have hszp : sizeOf p ≤ n := by
          simp at hsz
          omega
        have hnmp : noMap p = true := by
          simpa [noMap] using hnm
        have hrec := ih p sh2 bo rest hszp hval.2 hnmp
        have hvar := deserializeVariant_get bo vars idx sh2 (serialize bo p ++ rest) hget
        show deserialize bo (.senum vars) (((idx % 2 ^ 8) :: serialize bo p) ++ rest) = _
        rw [Nat.mod_eq_of_lt hval.1]
        simp [deserialize, readByte_cons, hvar, hrec]

/-- The buffer contents after storing the bytes `vs` at consecutive positions
starting at `i` (what a run of successful `write` calls does to the backing
buffer). -/
def setRange (buf : List Nat) (i : Nat) (vs : List Nat) : List Nat :=
  match vs with
  | [] => buf
  | b :: rest => setRange (buf.set i b) (i + 1) rest

theorem write_all_ok (w : BufferWriter) (vs : List Nat)
    (h : w.index + vs.length ≤ w.buffer.length) :
    write_all w vs = (.ok (), ⟨setRange w.buffer w.index vs, w.index + vs.length⟩) := by
  induction vs generalizing w with
  | nil => simp [write_all, setRange]
  | cons b rest ih =>
    simp only [List.length_cons] at h
    have hlt : ¬ w.buffer.length ≤ w.index := by omega
    have hrec := ih ⟨w.buffer.set w.index b, w.index + 1⟩ (by simp; omega)
    simp only [write_all, writeMut, hlt, if_false, hrec, setRange, List.length_cons]
    congr 2
    omega

theorem write_all_ok_index (w : BufferWriter) (vs : List Nat) (res : Unit) (w2 : BufferWriter)
    (h : write_all w vs = (.ok res, w2)) :
    w2.index = w.index + vs.length ∧ w2.buffer.length = w.buffer.length := by
  induction vs generalizing w with
  | nil =>
    simp only [write_all, Prod.mk.injEq] at h
    rw [← h.2]
    simp
  | cons b rest ih =>
    simp only [write_all, writeMut] at h
    by_cases hfull : w.buffer.length ≤ w.index
    · rw [if_pos hfull] at h
      simp at h
    · rw [if_neg hfull] at h
      have := ih ⟨w.buffer.set w.index b, w.index + 1⟩ h
      simp at this
      simp [List.length_cons]
      omega

theorem write_all_fail (w : BufferWriter) (vs : List Nat)
    (hsane : w.index ≤ w.buffer.length) (h : w.buffer.length < w.index + vs.length) :
    write_all w vs =
      (.error .BufferTooSmall,
        ⟨setRange w.buffer w.index (vs.take (w.buffer.length - w.index)),
         w.buffer.length⟩) := by
  induction vs generalizing w with
  | nil =>
    exfalso
    simp only [List.length_nil] at h
    omega
  | cons b rest ih =>
    by_cases hlt : w.index < w.buffer.length
    · have hrec := ih ⟨w.buffer.set w.index b, w.index + 1⟩ (by simp; omega)
        (by simp at h ⊢; omega)
      have hne : ¬ w.buffer.length ≤ w.index := by omega
      simp only [write_all, writeMut, hne, if_false, hrec]
      have htake : (b :: rest).take (w.buffer.length - w.index) =
          b :: rest.take (w.buffer.length - (w.index + 1)) := by
        have : w.buffer.length - w.index = (w.buffer.length - (w.index + 1)) + 1 := by omega
        rw [this]
        simp [List.take_succ_cons]
      rw [htake]
      simp [setRange]
    · have heq : w.buffer.length = w.index := by omega
      have hle : w.buffer.length ≤ w.index := by omega
      simp only [write_all, writeMut, hle, if_true]
      have : w.buffer.length - w.index = 0 := by omega
      simp [this, setRange, heq]

theorem serializeList_eq_flatten (bo : BOrder) (xs : List Value) :
    serializeList bo xs = (xs.map (serialize bo)).flatten := by
  induction xs with
  | nil => rfl
  | cons x r ih => simp [serializeList, ih]

/-- C1 (amended): for every value that conforms to the decode shape with
machine-representable components (scalar bit patterns within their width,
chars Unicode scalar values, strings valid UTF-8, sequence/string/byte-string
lengths within the 16-bit prefix, map counts and variant indices within 8 bits)
and that contains NO map, serializing with a byte order and deserializing the
produced bytes at the same shape and byte order yields a structurally equal
value and consumes exactly the produced bytes. Maps must be excluded: the
encoder writes a 1-byte pair count while the decoder reads an 8-byte count,
so even a one-entry map fails to round-trip (see
`c1_roundtrip_counterexample`). -/
theorem c1_roundtrip (bo : BOrder) (sh : Shape) (v : Value) (rest : List Nat)
    (hval : validFor sh v = true) (hnm : noMap v = true) :
    deserialize bo sh (serialize bo v ++ rest) = .ok v rest :=
  roundtrip_aux (sizeOf v) v sh bo rest le_rfl hval hnm

/-- C1 witness: a concrete composite value covering u8, i16, bool, char, str,
bytes, Option, sequence, enum and unit round-trips under big-endian order. -/
theorem c1_roundtrip_witness :
    validFor
        (.stuple [.suint 1, .sint 2, .sbool, .schar, .sstr, .sbytes, .soption (.suint 1),
          .sseq .sbool, .senum [.sunit, .stuple [.suint 1]], .sunit])
        (.vtuple [.vuint 1 7, .vint 2 (-5), .vbool true, .vchar 0x20AC, .vstr [104, 105],
          .vbytes [1, 2], .vsome (.vuint 1 3), .vseq [.vbool true, .vbool false],
          .venum 1 (.vtuple [.vuint 1 9]), .vunit]) = true ∧
    noMap
        (.vtuple [.vuint 1 7, .vint 2 (-5), .vbool true, .vchar 0x20AC, .vstr [104, 105],
          .vbytes [1, 2], .vsome (.vuint 1 3), .vseq [.vbool true, .vbool false],
          .venum 1 (.vtuple [.vuint 1 9]), .vunit]) = true ∧
    deserialize .be
        (.stuple [.suint 1, .sint 2, .sbool, .schar, .sstr, .sbytes, .soption (.suint 1),
          .sseq .sbool, .senum [.sunit, .stuple [.suint 1]], .sunit])
        (serialize .be
          (.vtuple [.vuint 1 7, .vint 2 (-5), .vbool true, .vchar 0x20AC, .vstr [104, 105],
            .vbytes [1, 2], .vsome (.vuint 1 3), .vseq [.vbool true, .vbool false],
            .venum 1 (.vtuple [.vuint 1 9]), .vunit]) ++ [99]) =
      .ok
        (.vtuple [.vuint 1 7, .vint 2 (-5), .vbool true, .vchar 0x20AC, .vstr [104, 105],
          .vbytes [1, 2], .vsome (.vuint 1 3), .vseq [.vbool true, .vbool false],
          .venum 1 (.vtuple [.vuint 1 9]), .vunit]) [99] :=
  ⟨by decide, by decide, c1_roundtrip .be _ _ [99] (by decide) (by decide)⟩

/-- C1 counterexample: the one-entry map {3 ↦ 4} over (u8, u8) encodes (big
endian) to [1, 3, 4] with its 1-byte pair count, but decoding that map type
reads an 8-byte count through the generic usize decode and panics on the
3-byte buffer: decode(encode(v)) is not v, refuting the round-trip claim for
maps as stated. -/
theorem c1_roundtrip_counterexample :
    deserialize .be (.smap (.suint 1) (.suint 1))
        (serialize .be (.vmap [(.vuint 1 3, .vuint 1 4)])) ≠
      .ok (.vmap [(.vuint 1 3, .vuint 1 4)]) [] := by
  rw [show deserialize .be (.smap (.suint 1) (.suint 1))
      (serialize .be (.vmap [(.vuint 1 3, .vuint 1 4)])) = DOut.panicked from rfl]
  intro h
  exact DOut.noConfusion h

/-- C2: the encoder writes the map pair count as exactly one byte
(`serialize_map_len`, `MapLenType = u8`) before any entry, but the decoder
obtains the count through the generic `usize` deserialize (serde dispatches
`usize` to `deserialize_u64`), consuming EIGHT bytes — the two directions are
not symmetric. At map {3 ↦ 4} over (u8, u8), big endian: the value encodes to
[1, 3, 4] (one count byte, then key and value); `serialize_map_len` writes
exactly one byte into the sink; decoding those same bytes requests 8 length
bytes and panics; and an 8-byte all-zero buffer decodes to the empty map,
confirming the 8-byte length read. -/
theorem c2_map_len_asymmetry :
    serialize .be (.vmap [(.vuint 1 3, .vuint 1 4)]) = [1, 3, 4] ∧
    serialize_map_len (some 1) ⟨[0, 0], 0⟩ = (.ok (), ⟨[1, 0], 1⟩) ∧
    deserialize .be (.smap (.suint 1) (.suint 1)) [1, 3, 4] = .panicked ∧
    deserialize .be (.smap (.suint 1) (.suint 1)) [0, 0, 0, 0, 0, 0, 0, 0] =
      .ok (.vmap []) [] :=
  ⟨rfl, rfl, rfl, rfl⟩

/-- C3 counterexample: the `&[u8]` Source asked for 2 bytes when only 1 remains
panics (out-of-bounds slice `&self[..len]`) — it does not return a
source-exhaustion error, refuting the claim as stated. -/
theorem c3_read_range_counterexample : read_range 2 [1] = .panicked := rfl

/-- C3 (amended): for the `&[u8]` Source, when at least `len` bytes remain,
`read_range` returns exactly the first `len` bytes — never a shorter slice,
and the unread remainder is untouched, so it never reads past the requested
range; when fewer than `len` bytes remain it PANICS via the out-of-bounds
slice `&self[..len]` instead of returning a source-exhaustion error. -/
theorem c3_read_range (len : Nat) (src : List Nat) :
    (len ≤ src.length →
      read_range len src = .ok (src.take len) (src.drop len) ∧
        (src.take len).length = len ∧ src.take len ++ src.drop len = src) ∧
    (src.length < len → read_range len src = .panicked) := by
  constructor
  · intro h
    refine ⟨?_, ?_, ?_⟩
    · unfold read_range
      rw [if_pos h]
    · simp [List.length_take]
      omega
    · simp
  · intro h
    unfold read_range
    rw [if_neg (by omega)]

theorem c3_read_range_witness :
    read_range 2 [5, 6, 7] = .ok ([5, 6, 7].take 2) ([5, 6, 7].drop 2) ∧
      ([5, 6, 7].take 2).length = 2 ∧
      [5, 6, 7].take 2 ++ [5, 6, 7].drop 2 = [5, 6, 7] ∧
      read_range 4 [5, 6, 7] = .panicked :=
  ⟨((c3_read_range 2 [5, 6, 7]).1 (by decide)).1,
   ((c3_read_range 2 [5, 6, 7]).1 (by decide)).2.1,
   ((c3_read_range 2 [5, 6, 7]).1 (by decide)).2.2,
   (c3_read_range 4 [5, 6, 7]).2 (by decide)⟩

/-- C4: enum wire format. The encoder (`serialize_unit_variant`,
`serialize_newtype_variant`, tuple/struct variant starters) writes the 1-byte
variant index (`variant_index as u8`) followed by the payload encoding; the
(spec-modelled) enum decoder reads one byte back, selects the statically known
variant shape that index names, decodes that variant's payload, and reproduces
the value. -/
theorem c4_enum_wire (bo : BOrder) (vars : List Shape) (idx : Nat) (payload : Value)
    (sh : Shape) (rest : List Nat) (hget : vars[idx]? = some sh) (h8 : idx < 2 ^ 8)
    (hval : validFor sh payload = true) (hnm : noMap payload = true) :
    serialize bo (.venum idx payload) = (idx % 2 ^ 8) :: serialize bo payload ∧
    deserialize bo (.senum vars) (serialize bo (.venum idx payload) ++ rest) =
      .ok (.venum idx payload) rest := by
  constructor
  · rfl
  · show deserialize bo (.senum vars) (((idx % 2 ^ 8) :: serialize bo payload) ++ rest) = _
    rw [Nat.mod_eq_of_lt h8]
    have hrec := roundtrip_aux (sizeOf payload) payload sh bo rest le_rfl hval hnm
    have hvar := deserializeVariant_get bo vars idx sh (serialize bo payload ++ rest) hget
    simp [deserialize, readByte_cons, hvar, hrec]

theorem c4_enum_wire_witness :
    ([.sunit, .suint 1] : List Shape)[1]? = some (.suint 1) ∧
    serialize .be (.venum 1 (.vuint 1 9)) = (1 % 2 ^ 8) :: serialize .be (.vuint 1 9) ∧
    deserialize .be (.senum [.sunit, .suint 1]) (serialize .be (.venum 1 (.vuint 1 9)) ++ [3]) =
      .ok (.venum 1 (.vuint 1 9)) [3] :=
  ⟨rfl,
   (c4_enum_wire .be [.sunit, .suint 1] 1 (.vuint 1 9) (.suint 1) [3] rfl (by decide)
     (by decide) (by decide)).1,
   (c4_enum_wire .be [.sunit, .suint 1] 1 (.vuint 1 9) (.suint 1) [3] rfl (by decide)
     (by decide) (by decide)).2⟩

/-- C5 counterexample: `BufferWriter` provides TWO `CoreWrite` implementations;
the by-value one performs the unchecked `self.buffer[self.index] = val` and
PANICS when the buffer is already full, rather than failing with a capacity
error — refuting the claim for "every CoreWrite implementation that
BufferWriter provides". -/
theorem c5_bufferwriter_counterexample : writeByValue ⟨[], 0⟩ 5 = .panicked := rfl

/-- C5 (amended): writing a byte to a full BufferWriter through the checked
`&mut BufferWriter` implementation fails with the distinguishable
`BufferTooSmall` capacity error (returned before any mutation); the by-value
`BufferWriter` implementation instead panics on its unchecked index. -/
theorem c5_bufferwriter_full (w : BufferWriter) (val : Nat)
    (hfull : w.buffer.length ≤ w.index) :
    writeMut w val = .error .BufferTooSmall ∧ writeByValue w val = .panicked := by
  constructor
  · unfold writeMut
    rw [if_pos hfull]
  · unfold writeByValue
    rw [if_neg (by omega)]

theorem c5_bufferwriter_full_witness :
    ([] : List Nat).length ≤ 0 ∧
      writeMut ⟨[], 0⟩ 7 = .error .BufferTooSmall ∧ writeByValue ⟨[], 0⟩ 7 = .panicked :=
  ⟨by decide, (c5_bufferwriter_full ⟨[], 0⟩ 7 (by decide)).1,
   (c5_bufferwriter_full ⟨[], 0⟩ 7 (by decide)).2⟩

/-- C6: decoding a bool byte other than 0/1 fails with `InvalidBoolValue`
carrying the offending byte, and an Option tag byte other than 0/1 fails with
`InvalidOptionValue` carrying the offending byte; byte 0 decodes to
false/None, byte 1 to true/Some (the Some payload decoded from the remaining
bytes). -/
theorem c6_invalid_discriminants (bo : BOrder) (t : Shape) (b : Nat) (rest : List Nat) :
    (b ≠ 0 → b ≠ 1 →
      deserialize bo .sbool (b :: rest) = .fail (.InvalidBoolValue b) ∧
        deserialize bo (.soption t) (b :: rest) = .fail (.InvalidOptionValue b)) ∧
    deserialize bo .sbool (0 :: rest) = .ok (.vbool false) rest ∧
    deserialize bo .sbool (1 :: rest) = .ok (.vbool true) rest ∧
    deserialize bo (.soption t) (0 :: rest) = .ok .vnone rest ∧
    (∀ x r2, deserialize bo t rest = .ok x r2 →
      deserialize bo (.soption t) (1 :: rest) = .ok (.vsome x) r2) := by
  refine ⟨?_, ?_, ?_, ?_, ?_⟩
  · intro h0 h1
    constructor
    · simp [deserialize, readByte_cons, h0, h1]
    · simp [deserialize, readByte_cons, h0, h1]
  · simp [deserialize, readByte_cons]
  · simp [deserialize, readByte_cons]
  · simp [deserialize, readByte_cons]
  · intro x r2 hx
    simp [deserialize, readByte_cons, hx]

theorem c6_invalid_discriminants_witness :
    deserialize .be .sbool [5] = .fail (.InvalidBoolValue 5) ∧
    deserialize .be (.soption .sbool) [2] = .fail (.InvalidOptionValue 2) ∧
    deserialize .be .sbool [0] = .ok (.vbool false) [] ∧
    deserialize .be .sbool [1] = .ok (.vbool true) [] ∧
    deserialize .be (.soption .sbool) [0] = .ok .vnone [] ∧
    deserialize .be (.soption .sbool) [1, 1] = .ok (.vsome (.vbool true)) [] :=
  ⟨((c6_invalid_discriminants .be .sbool 5 []).1 (by decide) (by decide)).1,
   ((c6_invalid_discriminants .be .sbool 2 []).1 (by decide) (by decide)).2,
   (c6_invalid_discriminants .be .sbool 0 []).2.1,
   (c6_invalid_discriminants .be .sbool 1 []).2.2.1,
   (c6_invalid_discriminants .be .sbool 0 []).2.2.2.1,
   (c6_invalid_discriminants .be .sbool 1 [1]).2.2.2.2 (.vbool true) [] rfl⟩

/-- C7: the 256-entry width table maps a leading byte at most 0x7F to 1,
0xC2..0xDF to 2, 0xE0..0xEF to 3, 0xF0..0xF4 to 4, and everything else
(0x80..0xC1, 0xF5..0xFF) to 0; char decode reads the leading byte and then
width−1 further bytes; a 0-width leading byte yields the `InvalidCharEncoding`
decode error and failed UTF-8 validation of the width-byte sequence yields the
`Utf8` decode error — error returns, not panics. -/
theorem c7_utf8_width_table (bo : BOrder) (b : Nat) (tail rest : List Nat) :
    (∀ x : Fin 256, utf8_char_width x.val =
      if x.val ≤ 0x7F then 1
      else if 0xC2 ≤ x.val ∧ x.val ≤ 0xDF then 2
      else if 0xE0 ≤ x.val ∧ x.val ≤ 0xEF then 3
      else if 0xF0 ≤ x.val ∧ x.val ≤ 0xF4 then 4
      else 0) ∧
    (utf8_char_width b = 0 →
      deserialize bo .schar (b :: rest) = .fail .InvalidCharEncoding) ∧
    (2 ≤ utf8_char_width b → tail.length = utf8_char_width b - 1 →
      utf8Valid (b :: tail) = false →
      deserialize bo .schar (b :: tail ++ rest) = .fail .Utf8) := by
  refine ⟨by decide, ?_, ?_⟩
  · intro h
    simp [deserialize, readByte_cons, h]
  · intro h2 hlen hbad
    have hne1 : ¬ utf8_char_width b = 1 := by omega
    have hne0 : ¬ utf8_char_width b = 0 := by omega
    have hr := read_range_exact (utf8_char_width b - 1) tail rest (by omega)
    simp [deserialize, readByte_cons, hne1, hne0, hr, hbad]

theorem c7_utf8_width_table_witness :
    utf8_char_width 0xC0 = 0 ∧
    deserialize .be .schar [0xC0, 0x80] = .fail .InvalidCharEncoding ∧
    2 ≤ utf8_char_width 0xE0 ∧
    utf8Valid [0xE0, 0x80, 0x80] = false ∧
    deserialize .be .schar [0xE0, 0x80, 0x80, 9] = .fail .Utf8 :=
  ⟨rfl,
   (c7_utf8_width_table .be 0xC0 [] [0x80]).2.1 rfl,
   by decide,
   by decide,
   (c7_utf8_width_table .be 0xE0 [0x80, 0x80] [9]).2.2 (by decide) (by decide) (by decide)⟩

/-- C8: encoding a sequence whose element count is unknown (`None`) fails with
`SequenceMustHaveLength` and returns the sink exactly as it was — no byte has
been written; with a known count, the 16-bit count (`len as u16`) is written
first (exactly two bytes at the cursor), and the encoding of a sequence value
is that 16-bit count followed by each element's encoding in order. -/
theorem c8_seq_len (bo : BOrder) (w : BufferWriter) (n : Nat) (xs : List Value) :
    serialize_seq_len bo none w = (.error .SequenceMustHaveLength, w) ∧
    (w.index + 2 ≤ w.buffer.length →
      serialize_seq_len bo (some n) w =
        (.ok (), ⟨setRange w.buffer w.index (writeBytes bo 2 (n % 2 ^ 16)), w.index + 2⟩)) ∧
    serialize bo (.vseq xs) =
      writeBytes bo 2 (xs.length % 2 ^ 16) ++ (xs.map (serialize bo)).flatten := by
  refine ⟨rfl, ?_, ?_⟩
  · intro hcap
    have hlen := writeBytes_length bo 2 (n % 2 ^ 16)
    have h := write_all_ok w (writeBytes bo 2 (n % 2 ^ 16)) (by omega)
    rw [hlen] at h
    simp only [serialize_seq_len, serialize_u16W, h]
  · simp [serialize, serializeList_eq_flatten]

theorem c8_seq_len_witness :
    serialize_seq_len .be none ⟨[0, 0, 0], 1⟩ =
      (.error .SequenceMustHaveLength, ⟨[0, 0, 0], 1⟩) ∧
    serialize_seq_len .be (some 2) ⟨[0, 0, 0], 1⟩ =
      (.ok (), ⟨setRange [0, 0, 0] 1 (writeBytes .be 2 (2 % 2 ^ 16)), 1 + 2⟩) ∧
    serialize .be (.vseq [.vbool true]) =
      writeBytes .be 2 ([Value.vbool true].length % 2 ^ 16) ++
        ([Value.vbool true].map (serialize .be)).flatten :=
  ⟨(c8_seq_len .be ⟨[0, 0, 0], 1⟩ 2 [.vbool true]).1,
   (c8_seq_len .be ⟨[0, 0, 0], 1⟩ 2 [.vbool true]).2.1 (by decide),
   (c8_seq_len .be ⟨[0, 0, 0], 1⟩ 2 [.vbool true]).2.2⟩

/-- C9: decoding a byte string (and a string, when its payload is valid UTF-8)
reads the 16-bit length prefix, then exactly the number of payload bytes that
prefix states, returns a borrowed slice of exactly that length, and consumes
nothing beyond it: the remainder of the input is returned untouched. -/
theorem c9_length_prefix_exact (bo : BOrder) (lb payload rest : List Nat)
    (hlb : lb.length = 2) (hlen : payload.length = readBytes bo lb) :
    deserialize bo .sbytes (lb ++ payload ++ rest) = .ok (.vbytes payload) rest ∧
    (utf8Valid payload = true →
      deserialize bo .sstr (lb ++ payload ++ rest) = .ok (.vstr payload) rest) := by
  have hr2 := read_range_exact 2 lb (payload ++ rest) hlb
  have hrP := read_range_exact (readBytes bo lb) payload rest hlen
  constructor
  · rw [List.append_assoc]
    simp [deserialize, hr2, hrP]
  · intro hutf
    rw [List.append_assoc]
    simp [deserialize, hr2, hrP, hutf]

theorem c9_length_prefix_exact_witness :
    deserialize .be .sbytes [0, 2, 104, 105, 7] = .ok (.vbytes [104, 105]) [7] ∧
    deserialize .be .sstr [0, 2, 104, 105, 7] = .ok (.vstr [104, 105]) [7] :=
  ⟨(c9_length_prefix_exact .be [0, 2] [104, 105] [7] rfl (by decide)).1,
   (c9_length_prefix_exact .be [0, 2] [104, 105] [7] rfl (by decide)).2 (by decide)⟩

/-- C10 counterexample: `write_all` of [7, 8] into a fresh capacity-1
BufferWriter fails with `BufferTooSmall`, but the first byte has been written
and the cursor advanced — a partially written prefix remains in the sink, so
the "no partially written prefix on failure" part of the claim is false. -/
theorem c10_write_all_counterexample :
    write_all ⟨[0], 0⟩ [7, 8] = (.error .BufferTooSmall, ⟨[7], 1⟩) ∧
      (⟨[7], 1⟩ : BufferWriter) ≠ ⟨[0], 0⟩ :=
  ⟨rfl, by decide⟩

/-- C10 (amended): `write_all` reports success exactly when every byte fits:
on success the cursor advanced by exactly the full byte count and all bytes
were stored, so it never reports success after a partial write; on failure it
returns `BufferTooSmall`, but the successfully written prefix stays in the
buffer with the cursor left at capacity — the caller must treat the sink
contents as invalid rather than resume. -/
theorem c10_write_all (w : BufferWriter) (vs : List Nat) :
    (w.index + vs.length ≤ w.buffer.length →
      write_all w vs = (.ok (), ⟨setRange w.buffer w.index vs, w.index + vs.length⟩)) ∧
    (∀ res w2, write_all w vs = (.ok res, w2) →
      w2.index = w.index + vs.length ∧ w2.buffer.length = w.buffer.length) ∧
    (w.index ≤ w.buffer.length → w.buffer.length < w.index + vs.length →
      write_all w vs =
        (.error .BufferTooSmall,
          ⟨setRange w.buffer w.index (vs.take (w.buffer.length - w.index)),
           w.buffer.length⟩)) :=
  ⟨fun h => write_all_ok w vs h,
   fun res w2 h => write_all_ok_index w vs res w2 h,
   fun hs h => write_all_fail w vs hs h⟩

theorem c10_write_all_witness :
    write_all ⟨[0, 0, 0], 0⟩ [7, 8] = (.ok (), ⟨setRange [0, 0, 0] 0 [7, 8], 0 + 2⟩) ∧
    write_all ⟨[0], 0⟩ [9, 8] =
      (.error .BufferTooSmall, ⟨setRange [0] 0 ([9, 8].take (1 - 0)), 1⟩) :=
  ⟨(c10_write_all ⟨[0, 0, 0], 0⟩ [7, 8]).1 (by decide),
   (c10_write_all ⟨[0], 0⟩ [9, 8]).2.2 (by decide) (by decide)⟩

end BincodeEmbedded
